import Mathlib

/-!
robin: delayed and periodic task entries (`task.go`).

A shallow embedding of `task.go`: the pooled `Task` wrapper, the `timerTask`
entry, its cancellation protocol and its two background timing goroutines.

* Machine integers (`int64`) are `Int`; the one place where overflow matters,
  `time.Duration(ms) * time.Millisecond`, wraps explicitly (`wrapInt64`).
* The per-entry `sync.Mutex` is modelled by atomicity: every function that
  takes the lock (`getCancelled`, `setCancelled`, `getInterval`, `Identify`,
  `init`) is one indivisible step; everything between two such steps may be
  interleaved with other goroutines (`stepPC`, `step`).
* Calls that leave the file (`SchedulerRegistry.EnqueueWithTask`,
  `SchedulerRegistry.Remove`, `sync.Pool.Put`, `time.NewTimer`,
  `time.NewTicker`, `Ticker.Stop`, `reflect.Value.Call`) are recorded, in
  order, in an event log.
* A Go panic (method call on a nil interface, `time.NewTicker` with a
  non-positive period) sets `panicked`; a panicked process takes no further
  step.
-/

namespace Robin

/-! ## Data model -/

/-- An `interface{}` value, identified by a number. -/
abbrev Iface := Nat

/-- A `reflect.Value`: `none` is the zero Value, `some x` is `reflect.ValueOf(x)`. -/
abbrev ReflectValue := Option Iface

/-- The Go call `reflect.ValueOf(x)`. -/
def reflectValueOf (x : Iface) : ReflectValue := some x

/-- The Go struct `Task`. A nil `doFunc` is `none`; a nil slice is `[]`. -/
structure Task where
  doFunc : Option Iface
  funcCache : ReflectValue
  paramsCache : List ReflectValue
deriving DecidableEq, Repr

/-- The zero value `Task{}` produced by `taskPool.New`. -/
def Task.zero : Task := ⟨none, none, []⟩

/-- A non-nil `SchedulerRegistry` interface value, identified by a number. -/
abbrev SchedulerRegistry := Nat

/-- The Go struct `timerTask` (the `lock` field is modelled by atomicity of the
functions that take it). A nil `scheduler` is `none`. -/
structure timerTask where
  identifyID : String
  scheduler : Option SchedulerRegistry
  firstInMs : Int
  intervalInMs : Int
  task : Task
  cancelled : Bool
deriving DecidableEq, Repr

/-- The zero entry `&timerTask{}` produced by `timerTaskPool.New`. -/
def timerTask.zero : timerTask := ⟨"", none, 0, 0, Task.zero, false⟩

/-- Calls that leave `task.go`, in the order they are made. -/
inductive Event where
  /-- The call `scheduler.EnqueueWithTask(task)`. -/
  | enqueueWithTask (r : SchedulerRegistry) (task : Task)
  /-- The call `scheduler.Remove(t)`. -/
  | remove (r : SchedulerRegistry)
  /-- The call `taskPool.Put(task)`. -/
  | taskPoolPut (task : Task)
  /-- The call `timerTaskPool.Put(t)`. -/
  | timerTaskPoolPut
  /-- The call `time.NewTimer(d)`. -/
  | newTimer (d : Int)
  /-- The call `time.NewTicker(d)` with `d > 0`. -/
  | newTicker (d : Int)
  /-- The call `interval.Stop()`. -/
  | tickerStop
  /-- The call `funcCache.Call(paramsCache)`. -/
  | call (f : ReflectValue) (ps : List ReflectValue)
deriving DecidableEq, Repr

/-! ## 64-bit arithmetic -/

/-- Membership in `int64`. -/
def isInt64 (x : Int) : Prop := -9223372036854775808 ≤ x ∧ x ≤ 9223372036854775807

instance (x : Int) : Decidable (isInt64 x) := by unfold isInt64; infer_instance

/-- Two's-complement wrap of an integer to `int64`. -/
def wrapInt64 (x : Int) : Int :=
  (x + 9223372036854775808) % 18446744073709551616 - 9223372036854775808

/-- The constant `time.Millisecond`, in nanoseconds. -/
def Millisecond : Int := 1000000

/-- The Go expression `time.Duration(ms) * time.Millisecond` on `int64`. -/
def msToDuration (ms : Int) : Int := wrapInt64 (ms * Millisecond)

/-- The largest millisecond count whose nanosecond count fits `int64`. -/
def maxExactMs : Int := 9223372036854

/-! ## Task -/

/-- The Go function `newTask(t, p...)`; `recycled` is what `taskPool.Get()` returned. -/
def newTask (recycled : Task) (t : Iface) (p : List Iface) : Task :=
  let task := recycled
  let task := { task with doFunc := some t }
  let task := { task with funcCache := reflectValueOf t }
  let task := { task with paramsCache := List.replicate p.length none }
  p.enum.foldl (fun task kp => { task with paramsCache := task.paramsCache.set kp.1 (reflectValueOf kp.2) }) task

/-- The `%p` verb of `fmt.Sprintf`: `0x` followed by the address in lowercase hex. -/
def fmtPointer (addr : Nat) : String := "0x" ++ String.mk (Nat.toDigits 16 addr)

/-- The Go method `(*timerTask).init`. `addrT` and `addrTask` are the addresses
of the locals `t` and `task` that `fmt.Sprintf("%p-%p", &t, &task)` prints. -/
def timerTask.init (t : timerTask) (scheduler : Option SchedulerRegistry) (task : Task)
    (firstInMs intervalInMs : Int) (addrT addrTask : Nat) : timerTask :=
  let t := { t with scheduler := scheduler }
  let t := { t with task := task }
  let t := { t with firstInMs := firstInMs }
  let t := { t with intervalInMs := intervalInMs }
  let t := { t with identifyID := fmtPointer addrT ++ "-" ++ fmtPointer addrTask }
  { t with cancelled := false }

/-- The Go function `newTimerTask`; `recycled` is the entry `timerTaskPool.Get()`
returned. -/
def newTimerTask (recycled : timerTask) (fiber : Option SchedulerRegistry) (task : Task)
    (firstInMs intervalInMs : Int) (addrT addrTask : Nat) : timerTask :=
  recycled.init fiber task firstInMs intervalInMs addrT addrTask

/-! ## Process state -/

/-- Control points of the goroutines that run the methods of one `timerTask`.
Two consecutive control points are separated by exactly one atomic action. -/
inductive PC where
  /-- In `schedule`, before `if t.firstInMs <= 0`. -/
  | scheduleStart
  /-- In the goroutine of `schedule`, at `<-first.C`. -/
  | firstWait
  /-- In `doFirstSchedule`, at `if t.getCancelled()` of `executeOnFiber`. -/
  | firstExecCheck
  /-- In `doFirstSchedule`, at `t.scheduler.EnqueueWithTask(t.task)`. -/
  | firstEnqueue
  /-- In `doIntervalSchedule`, at `if t.getInterval() <= 0`. -/
  | intervalCheck
  /-- In `doIntervalSchedule`, at `time.NewTicker(...)` followed by `go func()`. -/
  | intervalTicker
  /-- In the ticker goroutine, at the loop condition `!t.getCancelled()`. -/
  | loopCheck
  /-- In the ticker goroutine, at `<-interval.C`. -/
  | loopWait
  /-- In the ticker goroutine, at `if t.getCancelled()` of `executeOnFiber`. -/
  | loopExecCheck
  /-- In the ticker goroutine, at `t.scheduler.EnqueueWithTask(t.task)`. -/
  | loopEnqueue
  /-- In the ticker goroutine, at `interval.Stop()`. -/
  | loopStop
  /-- In `Dispose`, at `if t.getCancelled()`. -/
  | disposeCheck
  /-- In `Dispose`, at `t.setCancelled(true)`. -/
  | disposeSet
  /-- In `Dispose`, at `if nil != t.scheduler`, which guards `t.scheduler.Remove(t)`. -/
  | disposeRemove
  /-- In `Dispose`, at `t.task.release()`. -/
  | disposeTaskRelease
  /-- In `Dispose`, at `t.release()`. -/
  | disposeRelease
  /-- The goroutine has returned. -/
  | done
deriving DecidableEq, Repr

/-- One `timerTask` object together with everything that acts on it: how many
times the object currently sits in `timerTaskPool`, the calls made so far, the
goroutines holding a reference to the object, and whether the process has
panicked. -/
structure Sys where
  t : timerTask
  pooled : Nat
  log : List Event
  threads : List PC
  panicked : Bool
deriving DecidableEq, Repr

/-- Append one call to the log. -/
def Sys.emit (s : Sys) (e : Event) : Sys := { s with log := s.log ++ [e] }

/-- Record a Go panic. -/
def Sys.crash (s : Sys) : Sys := { s with panicked := true }

/-! ## Methods, run without interruption on the calling goroutine -/

/-- The Go method `(*timerTask).getCancelled`. -/
def getCancelled (s : Sys) : Bool := s.t.cancelled

/-- The Go method `(*timerTask).setCancelled`. -/
def setCancelled (s : Sys) (r : Bool) : Sys := { s with t := { s.t with cancelled := r } }

/-- The Go method `(*timerTask).getInterval`. -/
def getInterval (s : Sys) : Int := s.t.intervalInMs

/-- The Go method `(*timerTask).Identify`. -/
def Identify (s : Sys) : String := s.t.identifyID

/-- The Go method `(Task).run`. `reflect.Value.Call` panics on the zero Value and
when the callable does not accept the bound arguments; `accepts f ps` is that
check of the reflect library (kind, number and types of the arguments). -/
def Task.run (accepts : Iface → List ReflectValue → Bool) (s : Sys) (task : Task) : Sys :=
  match task.funcCache with
  | none => s.crash
  | some f =>
      if accepts f task.paramsCache then s.emit (.call task.funcCache task.paramsCache)
      else s.crash

/-- The Go method `(Task).release`. -/
def Task.release (s : Sys) (task : Task) : Sys := s.emit (.taskPoolPut task)

/-- The Go method `(*timerTask).release`. -/
def release (s : Sys) : Sys := { s.emit .timerTaskPoolPut with pooled := s.pooled + 1 }

/-- The Go method `(*timerTask).Dispose`. -/
def Dispose (s : Sys) : Sys :=
  if getCancelled s then s
  else
    let s := setCancelled s true
    let s := match s.t.scheduler with
      | some r => s.emit (.remove r)
      | none => s
    let s := Task.release s s.t.task
    release s

/-- The Go method `(*timerTask).executeOnFiber`. Calling a method of a nil
interface panics. -/
def executeOnFiber (s : Sys) : Sys :=
  if getCancelled s then s
  else
    match s.t.scheduler with
    | some r => s.emit (.enqueueWithTask r s.t.task)
    | none => s.crash

/-- The Go method `(*timerTask).doIntervalSchedule`. `time.NewTicker` panics on
a non-positive period; the ticker goroutine starts at its loop condition. -/
def doIntervalSchedule (s : Sys) : Sys :=
  if getInterval s ≤ 0 then Dispose s
  else
    let d := msToDuration (getInterval s)
    if d ≤ 0 then s.crash
    else { s.emit (.newTicker d) with threads := s.threads ++ [PC.loopCheck] }

/-- The Go method `(*timerTask).doFirstSchedule`. -/
def doFirstSchedule (s : Sys) : Sys :=
  let s := executeOnFiber s
  if s.panicked then s else doIntervalSchedule s

/-- The Go method `(*timerTask).schedule`. With a positive first delay the
goroutine it starts waits on the timer channel. -/
def schedule (s : Sys) : Sys :=
  if s.t.firstInMs ≤ 0 then doFirstSchedule s
  else
    { s.emit (.newTimer (msToDuration s.t.firstInMs)) with threads := s.threads ++ [PC.firstWait] }

/-! ## Interleaved execution -/

/-- One atomic action of a goroutine standing at control point `pc`: the next
control point and the new state (goroutines it starts are appended to
`threads`). -/
def stepPC : PC → Sys → PC × Sys
  | .scheduleStart, s =>
      if s.t.firstInMs ≤ 0 then (.firstExecCheck, s)
      else (.done, { s.emit (.newTimer (msToDuration s.t.firstInMs)) with
                      threads := s.threads ++ [PC.firstWait] })
  | .firstWait, s => (.firstExecCheck, s)
  | .firstExecCheck, s => if getCancelled s then (.intervalCheck, s) else (.firstEnqueue, s)
  | .firstEnqueue, s =>
      match s.t.scheduler with
      | some r => (.intervalCheck, s.emit (.enqueueWithTask r s.t.task))
      | none => (.done, s.crash)
  | .intervalCheck, s => if getInterval s ≤ 0 then (.disposeCheck, s) else (.intervalTicker, s)
  | .intervalTicker, s =>
      let d := msToDuration (getInterval s)
      if d ≤ 0 then (.done, s.crash)
      else (.done, { s.emit (.newTicker d) with threads := s.threads ++ [PC.loopCheck] })
  | .loopCheck, s => if getCancelled s then (.loopStop, s) else (.loopWait, s)
  | .loopWait, s => (.loopExecCheck, s)
  | .loopExecCheck, s => if getCancelled s then (.loopCheck, s) else (.loopEnqueue, s)
  | .loopEnqueue, s =>
      match s.t.scheduler with
      | some r => (.loopCheck, s.emit (.enqueueWithTask r s.t.task))
      | none => (.done, s.crash)
  | .loopStop, s => (.done, s.emit .tickerStop)
  | .disposeCheck, s => if getCancelled s then (.done, s) else (.disposeSet, s)
  | .disposeSet, s => (.disposeRemove, setCancelled s true)
  | .disposeRemove, s =>
      (.disposeTaskRelease,
        match s.t.scheduler with
        | some r => s.emit (.remove r)
        | none => s)
  | .disposeTaskRelease, s => (.disposeRelease, Task.release s s.t.task)
  | .disposeRelease, s => (.done, release s)
  | .done, s => (.done, s)

/-- Goroutine number `tid` performs its next atomic action. -/
def step (tid : Nat) (s : Sys) : Sys :=
  match s.threads[tid]? with
  | none => s
  | some pc =>
      let r := stepPC pc s
      { r.2 with threads := r.2.threads.set tid r.1 }

/-- A goroutine runs alone from control point `pc` for at most `fuel` atomic
actions, stopping when it returns or the process panics. -/
def runThread : Nat → PC → Sys → PC × Sys
  | 0, pc, s => (pc, s)
  | fuel + 1, pc, s =>
      if pc = PC.done ∨ s.panicked = true then (pc, s)
      else runThread fuel (stepPC pc s).1 (stepPC pc s).2

/-- What can happen to the object. The first group are whole method calls run
without interruption; `goSchedule` and `goDispose` start such a call on a
goroutine of its own, which `step` then advances one atomic action at a time;
`newTimerTask` takes the object out of `timerTaskPool` and re-initialises it. -/
inductive Op where
  | schedule
  | doFirstSchedule
  | doIntervalSchedule
  | executeOnFiber
  | Dispose
  | Identify
  | getInterval
  | getCancelled
  | release
  | goSchedule
  | goDispose
  | step (tid : Nat)
  | newTimerTask (fiber : Option SchedulerRegistry) (task : Task)
      (firstInMs intervalInMs : Int) (addrT addrTask : Nat)
deriving DecidableEq, Repr

/-- Whether the operation is available on a constructed entry (everything but
construction itself). -/
def Op.onEntry : Op → Bool
  | .newTimerTask _ _ _ _ _ _ => false
  | _ => true

/-- Effect of one operation. A panicked process does nothing more;
`newTimerTask` can only obtain the object when it is in the pool. -/
def applyOp (op : Op) (s : Sys) : Sys :=
  if s.panicked then s
  else
    match op with
    | .schedule => schedule s
    | .doFirstSchedule => doFirstSchedule s
    | .doIntervalSchedule => doIntervalSchedule s
    | .executeOnFiber => executeOnFiber s
    | .Dispose => Dispose s
    | .Identify => s
    | .getInterval => s
    | .getCancelled => s
    | .release => release s
    | .goSchedule => { s with threads := s.threads ++ [PC.scheduleStart] }
    | .goDispose => { s with threads := s.threads ++ [PC.disposeCheck] }
    | .step tid => step tid s
    | .newTimerTask fiber task firstInMs intervalInMs addrT addrTask =>
        if s.pooled = 0 then s
        else { s with pooled := s.pooled - 1,
                      t := Robin.newTimerTask s.t fiber task firstInMs intervalInMs addrT addrTask }

/-- Effect of a sequence of operations, left to right. -/
def run (s : Sys) (ops : List Op) : Sys := ops.foldl (fun s op => applyOp op s) s

/-- A process in which the object has just been constructed: not pooled, no
call made, no goroutine started. -/
def Sys.fresh (t : timerTask) : Sys := ⟨t, 0, [], [], false⟩

/-- Number of `EnqueueWithTask` calls in a log. -/
def countEnqueue (log : List Event) : Nat :=
  log.countP (fun e => match e with | .enqueueWithTask _ _ => true | _ => false)

/-- Number of `Remove` calls in a log. -/
def countRemove (log : List Event) : Nat :=
  log.countP (fun e => match e with | .remove _ => true | _ => false)

/-- Number of `taskPool.Put` calls in a log. -/
def countTaskPut (log : List Event) : Nat :=
  log.countP (fun e => match e with | .taskPoolPut _ => true | _ => false)

/-- Number of `timerTaskPool.Put` calls in a log. -/
def countEntryPut (log : List Event) : Nat :=
  log.countP (fun e => match e with | .timerTaskPoolPut => true | _ => false)

/-- Number of `funcCache.Call` invocations in a log. -/
def countCall (log : List Event) : Nat :=
  log.countP (fun e => match e with | .call _ _ => true | _ => false)

/-- Whether a goroutine is inside the ticker loop of `doIntervalSchedule`. -/
def PC.inLoop : PC → Bool
  | .loopCheck | .loopWait | .loopExecCheck | .loopEnqueue | .loopStop => true
  | _ => false

/-- Whether a goroutine has passed the cancellation check of `executeOnFiber`
and stands right before `EnqueueWithTask`. -/
def PC.armed : PC → Bool
  | .firstEnqueue | .loopEnqueue => true
  | _ => false

/-- Whether a goroutine is inside `Dispose` or has returned. -/
def PC.inDispose : PC → Bool
  | .disposeCheck | .disposeSet | .disposeRemove | .disposeTaskRelease | .disposeRelease
  | .done => true
  | _ => false

/-- The operations of the ticker-loop relation: an atomic action of any
goroutine, a `Dispose` run at once or started concurrently, and the reads. -/
def Op.loopOrDispose : Op → Bool
  | .step _ | .Dispose | .goDispose | .Identify | .getInterval | .getCancelled => true
  | _ => false

/-- The state right after `doIntervalSchedule` has run in a live process with no
other goroutine around: for a positive interval the ticker loop is goroutine `0`. -/
def loopStarted (t : timerTask) (pooled : Nat) (log : List Event) : Sys :=
  doIntervalSchedule ⟨t, pooled, log, [], false⟩

/-- Goroutine `0` is the ticker loop (or has returned) and every other goroutine
is inside `Dispose` (or has returned). -/
def LoopShape (s : Sys) : Prop :=
  ∃ pc₀ ds, s.threads = pc₀ :: ds ∧ (pc₀.inLoop = true ∨ pc₀ = PC.done) ∧
    ∀ d ∈ ds, d.inDispose = true

/-- Whether goroutine `0` has left the ticker loop for good: it stands at
`interval.Stop()` or has returned. -/
def loopExited (s : Sys) : Prop :=
  s.threads[0]? = some PC.loopStop ∨ s.threads[0]? = some PC.done

/-- How many atomic actions the ticker loop is from returning once the flag is
set: `<-interval.C`, the check in `executeOnFiber` (or the call after it), the
loop condition, `interval.Stop()`. -/
def PC.loopRank : PC → Nat
  | .loopWait => 4
  | .loopExecCheck => 3
  | .loopEnqueue => 3
  | .loopCheck => 2
  | .loopStop => 1
  | _ => 0

/-- The `loopRank` of goroutine `0`. -/
def loopRankOf (s : Sys) : Nat :=
  match s.threads[0]? with
  | some pc => pc.loopRank
  | none => 0

/-- Number of atomic actions of goroutine `0` in a sequence of operations. -/
def countStepZero (ops : List Op) : Nat :=
  ops.countP (fun op => match op with | .step 0 => true | _ => false)

/-- Number of goroutines standing right before `EnqueueWithTask`. -/
def armedCount (s : Sys) : Nat := s.threads.countP PC.armed

/-- Number of running ticker loops that reference the object. -/
def activeLoops (s : Sys) : Nat := s.threads.countP PC.inLoop

/-! # Theorems -/

/-! ## Arithmetic of the millisecond conversion -/

theorem wrapInt64_of_isInt64 (x : Int) (h : isInt64 x) : wrapInt64 x = x := by
  unfold isInt64 at h
  unfold wrapInt64
  omega

theorem isInt64_wrapInt64 (x : Int) : isInt64 (wrapInt64 x) := by
  unfold isInt64 wrapInt64
  omega

theorem msToDuration_exact (ms : Int) (h0 : 0 < ms) (h1 : ms ≤ maxExactMs) :
    msToDuration ms = ms * 1000000 := by
  unfold maxExactMs at h1
  unfold msToDuration Millisecond wrapInt64
  omega

theorem msToDuration_inexact (ms : Int) (h1 : maxExactMs < ms) :
    msToDuration ms ≠ ms * 1000000 := by
  unfold maxExactMs at h1
  unfold msToDuration Millisecond wrapInt64
  omega

/-! ## Pool reuse -/

theorem foldl_set_enumFrom (p : List Iface) :
    ∀ (pre : List ReflectValue) (task : Task),
      task.paramsCache = pre ++ List.replicate p.length none →
      (p.enumFrom pre.length).foldl
        (fun task kp =>
          { task with paramsCache := task.paramsCache.set kp.1 (reflectValueOf kp.2) }) task
        = { task with paramsCache := pre ++ p.map reflectValueOf } := by
  induction p with
  | nil => intro pre task h; cases task; simp at h; simp [h]
  | cons x xs ih =>
    intro pre task h
    simp only [List.enumFrom_cons, List.foldl_cons]
    have := ih (pre ++ [reflectValueOf x])
      { task with paramsCache := task.paramsCache.set pre.length (reflectValueOf x) }
      (by simp [h, List.replicate_succ])
    simp at this
    simp [this]

theorem newTask_eq (recycled : Task) (t : Iface) (p : List Iface) :
    newTask recycled t p = ⟨some t, reflectValueOf t, p.map reflectValueOf⟩ := by
  unfold newTask
  have := foldl_set_enumFrom p [] ⟨some t, reflectValueOf t, List.replicate p.length none⟩ (by simp)
  simpa [List.enum] using this

/-- C7: construction does not depend on what the pool handed back. For any two
recycled `Task` values `newTask` returns the same `Task`, whose callable is `t`
and whose bound arguments are the wrapped `p`, element by element; for any two
recycled entries `newTimerTask` (that is, `init`) returns the same entry, with
`scheduler`, `task`, `firstInMs`, `intervalInMs` and `identifyID` overwritten
and `cancelled = false`. -/
theorem C7_no_state_leak_across_pool_reuse :
    (∀ (r₁ r₂ : Task) (t : Iface) (p : List Iface),
      newTask r₁ t p = newTask r₂ t p ∧
      (newTask r₁ t p).doFunc = some t ∧
      (newTask r₁ t p).funcCache = reflectValueOf t ∧
      (newTask r₁ t p).paramsCache.length = p.length ∧
      ∀ (k : Nat) (x : Iface), p[k]? = some x → (newTask r₁ t p).paramsCache[k]? = some (reflectValueOf x)) ∧
    (∀ (e₁ e₂ : timerTask) (scheduler : Option SchedulerRegistry) (task : Task)
        (firstInMs intervalInMs : Int) (addrT addrTask : Nat),
      newTimerTask e₁ scheduler task firstInMs intervalInMs addrT addrTask
        = newTimerTask e₂ scheduler task firstInMs intervalInMs addrT addrTask ∧
      e₁.init scheduler task firstInMs intervalInMs addrT addrTask
        = ⟨fmtPointer addrT ++ "-" ++ fmtPointer addrTask, scheduler, firstInMs, intervalInMs,
            task, false⟩) := by
  refine ⟨?_, ?_⟩
  · intro r₁ r₂ t p
    simp only [newTask_eq]
    refine ⟨trivial, trivial, trivial, by simp, ?_⟩
    intro k x hk
    simp [hk]
  · intro e₁ e₂ scheduler task firstInMs intervalInMs addrT addrTask
    exact ⟨rfl, rfl⟩

/-- Witness of C7: a recycled `Task` that still holds callable `9` and two
arguments is rebuilt for callable `1` with arguments `2, 3`; its second bound
argument wraps `3`. -/
theorem C7_no_state_leak_across_pool_reuse_witness :
    (newTask ⟨some 9, some 9, [some 4, some 5, some 6]⟩ 1 [2, 3]).paramsCache[1]?
      = some (reflectValueOf 3) :=
  (C7_no_state_leak_across_pool_reuse.1 ⟨some 9, some 9, [some 4, some 5, some 6]⟩ Task.zero 1
    [2, 3]).2.2.2.2 1 3 rfl

/-- C10 (as stated, refuted): `9223372036855` is a positive `int64` number of
milliseconds whose `time.Duration(ms) * time.Millisecond` wraps to a negative
duration, different from `ms * 1000000`; `doIntervalSchedule` on an entry with
that interval panics in `time.NewTicker`. -/
theorem C10_counterexample :
    isInt64 9223372036855 ∧ (0 : Int) < 9223372036855 ∧
    msToDuration 9223372036855 = -9223372036854551616 ∧
    msToDuration 9223372036855 ≠ 9223372036855 * 1000000 ∧
    ¬ (0 < msToDuration 9223372036855) ∧
    (doIntervalSchedule
      (Sys.fresh { timerTask.zero with intervalInMs := 9223372036855 })).panicked = true := by
  decide

/-- C10 (amended): for a positive millisecond count `ms` (in particular every
positive `int64`), the wrapped
product `time.Duration(ms) * time.Millisecond` equals `ms * 1000000` and is
positive exactly when `ms ≤ 9223372036854`; for such an interval
`doIntervalSchedule` starts the ticker with period `ms * 1000000` and does not
panic, and for such a first delay `schedule` arms the timer with `ms * 1000000`. -/
theorem C10_ms_conversion_exact_iff (ms : Int) (hpos : 0 < ms) :
    ((msToDuration ms = ms * 1000000 ∧ 0 < msToDuration ms) ↔ ms ≤ maxExactMs) ∧
    (ms ≤ maxExactMs →
      (∀ s : Sys, s.t.intervalInMs = ms →
        doIntervalSchedule s =
          { s with log := s.log ++ [Event.newTicker (ms * 1000000)],
                   threads := s.threads ++ [PC.loopCheck] }) ∧
      (∀ s : Sys, s.t.firstInMs = ms →
        schedule s =
          { s with log := s.log ++ [Event.newTimer (ms * 1000000)],
                   threads := s.threads ++ [PC.firstWait] })) := by
  refine ⟨⟨?_, ?_⟩, ?_⟩
  · intro h
    by_contra hc
    exact msToDuration_inexact ms (by omega) h.1
  · intro h
    have := msToDuration_exact ms hpos h
    exact ⟨this, by omega⟩
  · intro h
    have hd := msToDuration_exact ms hpos h
    refine ⟨?_, ?_⟩
    · intro s hs
      have h1 : ¬ (ms ≤ 0) := by omega
      have h2 : ¬ (ms * 1000000 ≤ 0) := by omega
      simp [doIntervalSchedule, getInterval, hs, hd, h1, h2, Sys.emit]
    · intro s hs
      have h1 : ¬ (ms ≤ 0) := by omega
      simp [schedule, hs, hd, h1, Sys.emit]

/-- Witness of C10 (amended) at `ms = 20`. -/
theorem C10_ms_conversion_exact_iff_witness :
    ((msToDuration 20 = 20 * 1000000 ∧ 0 < msToDuration 20) ↔ (20 : Int) ≤ maxExactMs) ∧
    ((20 : Int) ≤ maxExactMs →
      (∀ s : Sys, s.t.intervalInMs = 20 →
        doIntervalSchedule s =
          { s with log := s.log ++ [Event.newTicker (20 * 1000000)],
                   threads := s.threads ++ [PC.loopCheck] }) ∧
      (∀ s : Sys, s.t.firstInMs = 20 →
        schedule s =
          { s with log := s.log ++ [Event.newTimer (20 * 1000000)],
                   threads := s.threads ++ [PC.firstWait] })) :=
  C10_ms_conversion_exact_iff 20 (by decide)

/-! ## Counting calls in the log -/

@[simp] theorem countEnqueue_append (l₁ l₂ : List Event) :
    countEnqueue (l₁ ++ l₂) = countEnqueue l₁ + countEnqueue l₂ := by
  simp [countEnqueue]

@[simp] theorem countRemove_append (l₁ l₂ : List Event) :
    countRemove (l₁ ++ l₂) = countRemove l₁ + countRemove l₂ := by
  simp [countRemove]

@[simp] theorem countTaskPut_append (l₁ l₂ : List Event) :
    countTaskPut (l₁ ++ l₂) = countTaskPut l₁ + countTaskPut l₂ := by
  simp [countTaskPut]

@[simp] theorem countEntryPut_append (l₁ l₂ : List Event) :
    countEntryPut (l₁ ++ l₂) = countEntryPut l₁ + countEntryPut l₂ := by
  simp [countEntryPut]

@[simp] theorem countCall_append (l₁ l₂ : List Event) :
    countCall (l₁ ++ l₂) = countCall l₁ + countCall l₂ := by
  simp [countCall]

/-! ## Disposal -/

theorem Dispose_of_cancelled (s : Sys) (h : s.t.cancelled = true) : Dispose s = s := by
  simp [Dispose, getCancelled, h]

theorem Dispose_cancelled (s : Sys) : (Dispose s).t.cancelled = true := by
  unfold Dispose getCancelled
  split
  · assumption
  · cases hs : s.t.scheduler <;> simp [setCancelled, Task.release, release, Sys.emit, hs]

theorem Dispose_of_not_cancelled (s : Sys) (h : s.t.cancelled = false) :
    Dispose s =
      { s with
        t := { s.t with cancelled := true },
        pooled := s.pooled + 1,
        log := s.log ++
          (match s.t.scheduler with
            | some r => [Event.remove r]
            | none => []) ++
          [Event.taskPoolPut s.t.task, Event.timerTaskPoolPut] } := by
  cases hs : s.t.scheduler <;>
    simp [Dispose, getCancelled, h, setCancelled, Task.release, release, Sys.emit, hs]

theorem Dispose_idem (s : Sys) : Dispose (Dispose s) = Dispose s :=
  Dispose_of_cancelled _ (Dispose_cancelled s)

theorem Dispose_iterate (s : Sys) (n : Nat) : Dispose^[n + 1] s = Dispose s := by
  induction n with
  | zero => rfl
  | succ n ih => rw [Function.iterate_succ_apply', ih, Dispose_idem]

/-- C1: sequential `Dispose` is idempotent. On an entry whose flag is false the
first call sets the flag, calls `Remove` once when the scheduler is non-nil (and
not at all when it is nil), puts the owned `Task` into `taskPool` once and the
entry into `timerTaskPool` once, and changes nothing else; a further `Dispose`
changes nothing, so any `n + 1` calls in a row equal one. -/
theorem C1_dispose_sequentially_idempotent (s : Sys) (h : s.t.cancelled = false) :
    Dispose s =
      { s with
        t := { s.t with cancelled := true },
        pooled := s.pooled + 1,
        log := s.log ++
          (match s.t.scheduler with
            | some r => [Event.remove r]
            | none => []) ++
          [Event.taskPoolPut s.t.task, Event.timerTaskPoolPut] } ∧
    countRemove (Dispose s).log = countRemove s.log + (if s.t.scheduler = none then 0 else 1) ∧
    countTaskPut (Dispose s).log = countTaskPut s.log + 1 ∧
    countEntryPut (Dispose s).log = countEntryPut s.log + 1 ∧
    Dispose (Dispose s) = Dispose s ∧
    ∀ n : Nat, Dispose^[n + 1] s = Dispose s := by
  refine ⟨Dispose_of_not_cancelled s h, ?_, ?_, ?_, Dispose_idem s, Dispose_iterate s⟩
  · rw [Dispose_of_not_cancelled s h]
    cases hs : s.t.scheduler <;> simp [countRemove]
  · rw [Dispose_of_not_cancelled s h]
    cases hs : s.t.scheduler <;> simp [countTaskPut]
  · rw [Dispose_of_not_cancelled s h]
    cases hs : s.t.scheduler <;> simp [countEntryPut]

/-- Witness of C1 on a fresh entry with scheduler `7`. -/
theorem C1_dispose_sequentially_idempotent_witness :
    Dispose^[3] (Sys.fresh ⟨"id", some 7, 0, 0, Task.zero, false⟩)
      = ⟨⟨"id", some 7, 0, 0, Task.zero, true⟩, 1,
          [Event.remove 7, Event.taskPoolPut Task.zero, Event.timerTaskPoolPut], [], false⟩ :=
  ((C1_dispose_sequentially_idempotent
      (Sys.fresh ⟨"id", some 7, 0, 0, Task.zero, false⟩) rfl).2.2.2.2.2 2).trans
    (C1_dispose_sequentially_idempotent
      (Sys.fresh ⟨"id", some 7, 0, 0, Task.zero, false⟩) rfl).1

/-! ## Submission -/

theorem executeOnFiber_of_cancelled (s : Sys) (h : s.t.cancelled = true) :
    executeOnFiber s = s := by
  simp [executeOnFiber, getCancelled, h]

theorem executeOnFiber_of_scheduler (s : Sys) (r : SchedulerRegistry)
    (h : s.t.cancelled = false) (hr : s.t.scheduler = some r) :
    executeOnFiber s = s.emit (Event.enqueueWithTask r s.t.task) := by
  simp [executeOnFiber, getCancelled, h, hr]

/-- C5 (as stated, refuted): on a non-cancelled entry whose scheduler is nil,
`executeOnFiber` makes no `EnqueueWithTask` call; the method call on the nil
interface panics. -/
theorem C5_counterexample :
    (Sys.fresh ⟨"id", none, 0, 0, Task.zero, false⟩).t.cancelled = false ∧
    countEnqueue (executeOnFiber (Sys.fresh ⟨"id", none, 0, 0, Task.zero, false⟩)).log = 0 ∧
    (executeOnFiber (Sys.fresh ⟨"id", none, 0, 0, Task.zero, false⟩)).panicked = true := by
  decide

/-- C5 (amended): `executeOnFiber` on a cancelled entry changes nothing and
makes no call; on a non-cancelled entry with a non-nil scheduler `r` it makes
exactly one call, `r.EnqueueWithTask(t.task)`, does not invoke the task, and
changes no field of the entry. With a non-nil scheduler it is a no-op exactly
when the entry is cancelled. -/
theorem C5_executeOnFiber_noop_iff_cancelled (s : Sys) :
    (s.t.cancelled = true → executeOnFiber s = s) ∧
    (∀ r : SchedulerRegistry, s.t.scheduler = some r →
      (s.t.cancelled = false →
        executeOnFiber s = { s with log := s.log ++ [Event.enqueueWithTask r s.t.task] } ∧
        countEnqueue (executeOnFiber s).log = countEnqueue s.log + 1 ∧
        countCall (executeOnFiber s).log = countCall s.log ∧
        (executeOnFiber s).t = s.t) ∧
      (executeOnFiber s = s ↔ s.t.cancelled = true)) := by
  refine ⟨executeOnFiber_of_cancelled s, ?_⟩
  intro r hr
  have key : s.t.cancelled = false →
      executeOnFiber s = { s with log := s.log ++ [Event.enqueueWithTask r s.t.task] } := by
    intro h
    rw [executeOnFiber_of_scheduler s r h hr]
    rfl
  refine ⟨?_, ?_, executeOnFiber_of_cancelled s⟩
  · intro h
    rw [key h]
    refine ⟨rfl, ?_, ?_, rfl⟩
    · simp [countEnqueue]
    · simp [countCall]
  · intro he
    by_contra hc
    have hc : s.t.cancelled = false := by simpa using hc
    rw [key hc] at he
    have := congrArg (fun x => x.log.length) he
    simp at this

/-- Witness of C5 (amended): a cancelled and a non-cancelled entry with scheduler `7`. -/
theorem C5_executeOnFiber_noop_iff_cancelled_witness :
    executeOnFiber (Sys.fresh ⟨"id", some 7, 0, 0, Task.zero, true⟩)
      = Sys.fresh ⟨"id", some 7, 0, 0, Task.zero, true⟩ ∧
    executeOnFiber (Sys.fresh ⟨"id", some 7, 0, 0, Task.zero, false⟩)
      = { Sys.fresh ⟨"id", some 7, 0, 0, Task.zero, false⟩ with
          log := [] ++ [Event.enqueueWithTask 7 Task.zero] } :=
  ⟨(C5_executeOnFiber_noop_iff_cancelled (Sys.fresh ⟨"id", some 7, 0, 0, Task.zero, true⟩)).1 rfl,
   (((C5_executeOnFiber_noop_iff_cancelled
      (Sys.fresh ⟨"id", some 7, 0, 0, Task.zero, false⟩)).2 7 rfl).1 rfl).1⟩

/-! ## One atomic action -/

theorem countP_set_add {α : Type} (p : α → Bool) (l : List α) :
    ∀ (i : Nat) (a b : α), l[i]? = some b →
      List.countP p (l.set i a) + (if p b then 1 else 0)
        = List.countP p l + (if p a then 1 else 0) := by
  induction l with
  | nil => intro i a b h; simp at h
  | cons x xs ih =>
    intro i a b h
    cases i with
    | zero =>
      simp at h
      subst h
      simp [List.countP_cons]
      omega
    | succ i =>
      simp at h
      have := ih i a b h
      simp [List.countP_cons]
      omega

theorem stepPC_threads (pc : PC) (s : Sys) :
    ∃ sp, (stepPC pc s).2.threads = s.threads ++ sp ∧ ∀ q ∈ sp, q.armed = false := by
  by_cases hf : s.t.firstInMs ≤ 0 <;> by_cases hd : msToDuration (getInterval s) ≤ 0 <;>
    cases hs : s.t.scheduler <;> cases pc <;>
    simp [stepPC, hs, hf, hd, setCancelled, Task.release, release, Sys.emit, Sys.crash,
      PC.armed] <;>
    split_ifs <;> simp

theorem stepPC_log (pc : PC) (s : Sys) :
    countEnqueue s.log ≤ countEnqueue (stepPC pc s).2.log := by
  cases hs : s.t.scheduler <;> cases pc <;>
    simp [stepPC, hs, setCancelled, Task.release, release, Sys.emit, Sys.crash] <;>
    split_ifs <;> simp

theorem stepPC_of_cancelled (pc : PC) (s : Sys) (h : s.t.cancelled = true) :
    (stepPC pc s).2.t.cancelled = true ∧
    countEnqueue (stepPC pc s).2.log + (if (stepPC pc s).1.armed then 1 else 0)
      ≤ countEnqueue s.log + (if pc.armed then 1 else 0) := by
  cases hs : s.t.scheduler <;> cases pc <;>
    simp [stepPC, hs, h, getCancelled, setCancelled, Task.release, release, Sys.emit,
      Sys.crash, PC.armed, countEnqueue] <;>
    split_ifs <;> simp_all [PC.armed]

theorem countP_armed_eq_zero (sp : List PC) (h : ∀ q ∈ sp, q.armed = false) :
    List.countP PC.armed sp = 0 := by
  rw [List.countP_eq_zero]
  intro q hq
  simp [h q hq]

theorem step_of_cancelled (tid : Nat) (s : Sys) (h : s.t.cancelled = true) :
    (step tid s).t.cancelled = true ∧
    countEnqueue (step tid s).log + armedCount (step tid s)
      ≤ countEnqueue s.log + armedCount s ∧
    countEnqueue s.log ≤ countEnqueue (step tid s).log := by
  unfold step
  cases hth : s.threads[tid]? with
  | none => simp [h]
  | some pc =>
    obtain ⟨sp, hsp, hq⟩ := stepPC_threads pc s
    obtain ⟨hc, hpot⟩ := stepPC_of_cancelled pc s h
    have hlog := stepPC_log pc s
    have hget : (s.threads ++ sp)[tid]? = some pc := by
      have hlt : tid < s.threads.length := by
        by_contra hge
        have hnone : s.threads[tid]? = none := List.getElem?_eq_none (by omega)
        rw [hnone] at hth
        exact Option.noConfusion hth
      rw [List.getElem?_append_left hlt]
      exact hth
    have hset := countP_set_add PC.armed (s.threads ++ sp) tid (stepPC pc s).1 pc hget
    rw [List.countP_append, countP_armed_eq_zero sp hq] at hset
    simp only [armedCount, hsp]
    refine ⟨hc, ?_, hlog⟩
    omega

theorem applyOp_of_cancelled (op : Op) (s : Sys) (ho : op.onEntry = true)
    (h : s.t.cancelled = true) :
    (applyOp op s).t.cancelled = true ∧
    countEnqueue (applyOp op s).log + armedCount (applyOp op s)
      ≤ countEnqueue s.log + armedCount s ∧
    countEnqueue s.log ≤ countEnqueue (applyOp op s).log := by
  unfold applyOp
  by_cases hp : s.panicked = true
  · simp [hp, h]
  · simp only [hp, if_false]
    have hp : s.panicked = false := by simpa using hp
    cases op with
    | step tid => exact step_of_cancelled tid s h
    | newTimerTask _ _ _ _ _ _ => simp [Op.onEntry] at ho
    | Dispose => simp [Dispose_of_cancelled s h, h]
    | executeOnFiber => simp [executeOnFiber_of_cancelled s h, h]
    | Identify => simp [h]
    | getInterval => simp [h]
    | getCancelled => simp [h]
    | release => simp [release, Sys.emit, h, armedCount, countEnqueue]
    | goSchedule => simp [h, armedCount, PC.armed]
    | goDispose => simp [h, armedCount, PC.armed]
    | doIntervalSchedule =>
      simp only [doIntervalSchedule, Dispose_of_cancelled s h]
      split_ifs <;> simp [h, Sys.emit, Sys.crash, armedCount, PC.armed, countEnqueue]
    | doFirstSchedule =>
      simp only [doFirstSchedule, executeOnFiber_of_cancelled s h, hp, doIntervalSchedule,
        Dispose_of_cancelled s h]
      split_ifs <;> simp_all [Sys.emit, Sys.crash, armedCount, PC.armed, countEnqueue]
    | schedule =>
      simp only [schedule, doFirstSchedule, executeOnFiber_of_cancelled s h, hp,
        doIntervalSchedule, Dispose_of_cancelled s h]
      split_ifs <;> simp_all [Sys.emit, Sys.crash, armedCount, PC.armed, countEnqueue]

theorem run_nil (s : Sys) : run s [] = s := rfl

theorem run_cons (s : Sys) (op : Op) (ops : List Op) :
    run s (op :: ops) = run (applyOp op s) ops := rfl

theorem run_append (s : Sys) (ops₁ ops₂ : List Op) :
    run s (ops₁ ++ ops₂) = run (run s ops₁) ops₂ := by
  simp [run, List.foldl_append]

theorem run_of_cancelled (ops : List Op) :
    ∀ (s : Sys), (∀ op ∈ ops, op.onEntry = true) → s.t.cancelled = true →
      (run s ops).t.cancelled = true ∧
      countEnqueue (run s ops).log + armedCount (run s ops)
        ≤ countEnqueue s.log + armedCount s ∧
      countEnqueue s.log ≤ countEnqueue (run s ops).log := by
  induction ops with
  | nil => intro s _ h; simp [run_nil, h]
  | cons op ops ih =>
    intro s ho h
    obtain ⟨h1, h2, h3⟩ := applyOp_of_cancelled op s (ho op (by simp)) h
    obtain ⟨k1, k2, k3⟩ := ih (applyOp op s) (fun o hm => ho o (by simp [hm])) h1
    rw [run_cons]
    exact ⟨k1, by omega, by omega⟩

/-! ## Monotonicity of the cancelled flag -/

theorem methods_of_cancelled (s : Sys) (h : s.t.cancelled = true) :
    (doIntervalSchedule s).t.cancelled = true ∧ (doFirstSchedule s).t.cancelled = true ∧
    (schedule s).t.cancelled = true := by
  refine ⟨?_, ?_, ?_⟩
  · simp only [doIntervalSchedule, Dispose_of_cancelled s h]
    split_ifs <;> simp [h, Sys.emit, Sys.crash]
  · simp only [doFirstSchedule, executeOnFiber_of_cancelled s h, doIntervalSchedule,
      Dispose_of_cancelled s h]
    split_ifs <;> simp [h, Sys.emit, Sys.crash]
  · simp only [schedule, doFirstSchedule, executeOnFiber_of_cancelled s h, doIntervalSchedule,
      Dispose_of_cancelled s h]
    split_ifs <;> simp [h, Sys.emit, Sys.crash]

/-- C8: the cancelled flag is monotone. From a state whose flag is true, every
operation available on a constructed entry (`schedule`, `doFirstSchedule`,
`doIntervalSchedule`, `executeOnFiber`, `Dispose`, `Identify`, `getInterval`,
`getCancelled`, `release`, starting a concurrent `schedule` or `Dispose`, and
any single atomic action of any goroutine, the ticker loop included) and every
sequence of them leaves the flag true; and whatever the state, the flag is true
after `Dispose`, whose one write to it (`setCancelled(true)`) writes true. -/
theorem C8_cancelled_flag_monotone (s : Sys) (h : s.t.cancelled = true) :
    (∀ op : Op, op.onEntry = true → (applyOp op s).t.cancelled = true) ∧
    (∀ ops : List Op, (∀ op ∈ ops, op.onEntry = true) → (run s ops).t.cancelled = true) ∧
    (schedule s).t.cancelled = true ∧
    (doFirstSchedule s).t.cancelled = true ∧
    (doIntervalSchedule s).t.cancelled = true ∧
    (executeOnFiber s).t.cancelled = true ∧
    (Dispose s).t.cancelled = true ∧
    (release s).t.cancelled = true ∧
    (∀ (pc : PC), (stepPC pc s).2.t.cancelled = true) ∧
    (∀ (tid : Nat), (step tid s).t.cancelled = true) ∧
    (∀ s₀ : Sys, (Dispose s₀).t.cancelled = true ∧
      (stepPC PC.disposeSet s₀).2.t.cancelled = true) := by
  obtain ⟨m1, m2, m3⟩ := methods_of_cancelled s h
  refine ⟨fun op ho => (applyOp_of_cancelled op s ho h).1,
    fun ops ho => (run_of_cancelled ops s ho h).1, m3, m2, m1, ?_, Dispose_cancelled s, ?_,
    fun pc => (stepPC_of_cancelled pc s h).1, fun tid => (step_of_cancelled tid s h).1, ?_⟩
  · rw [executeOnFiber_of_cancelled s h]; exact h
  · simp [release, Sys.emit, h]
  · intro s₀
    exact ⟨Dispose_cancelled s₀, by simp [stepPC, setCancelled]⟩

/-- Witness of C8: a disposed entry with a ticker loop still running; the loop
observes the flag and a second `Dispose` is attempted. -/
theorem C8_cancelled_flag_monotone_witness :
    (run ⟨⟨"id", some 7, 0, 20, Task.zero, true⟩, 1, [], [PC.loopWait], false⟩
      [Op.step 0, Op.step 0, Op.Dispose, Op.schedule, Op.step 0, Op.step 0]).t.cancelled
      = true :=
  (C8_cancelled_flag_monotone
    ⟨⟨"id", some 7, 0, 20, Task.zero, true⟩, 1, [], [PC.loopWait], false⟩ rfl).2.1
    [Op.step 0, Op.step 0, Op.Dispose, Op.schedule, Op.step 0, Op.step 0] (by decide)

/-! ## First firing -/

theorem doFirstSchedule_one_shot (s : Sys) (r : SchedulerRegistry) (hp : s.panicked = false)
    (hc : s.t.cancelled = false) (hr : s.t.scheduler = some r) (hi : s.t.intervalInMs ≤ 0) :
    doFirstSchedule s =
      { s with
        t := { s.t with cancelled := true },
        pooled := s.pooled + 1,
        log := s.log ++ [Event.enqueueWithTask r s.t.task, Event.remove r,
          Event.taskPoolPut s.t.task, Event.timerTaskPoolPut] } := by
  simp [doFirstSchedule, executeOnFiber, getCancelled, hc, hr, Sys.emit, hp,
    doIntervalSchedule, getInterval, hi, Dispose, setCancelled, Task.release, release]

/-- C3: one-shot entries fire exactly once and end disposed. On a freshly
constructed entry (live process, no goroutine yet, flag false, scheduler `r`
non-nil) with `intervalInMs ≤ 0`, `doFirstSchedule` (which is what `schedule`
runs on the caller when `firstInMs ≤ 0`) makes the calls
`r.EnqueueWithTask(t.task)`, `r.Remove(t)`, `taskPool.Put`, `timerTaskPool.Put`
in this order and nothing else, sets the flag, and starts no ticker goroutine;
whatever operations on the entry follow, short of constructing a new entry from
the pooled object, the number of `EnqueueWithTask` calls stays one more than
before, the flag stays true and no ticker loop runs. -/
theorem C3_one_shot_fires_once (s : Sys) (r : SchedulerRegistry) (hp : s.panicked = false)
    (hth : s.threads = []) (hc : s.t.cancelled = false) (hr : s.t.scheduler = some r)
    (hi : s.t.intervalInMs ≤ 0) :
    doFirstSchedule s =
      { s with
        t := { s.t with cancelled := true },
        pooled := s.pooled + 1,
        log := s.log ++ [Event.enqueueWithTask r s.t.task, Event.remove r,
          Event.taskPoolPut s.t.task, Event.timerTaskPoolPut] } ∧
    (s.t.firstInMs ≤ 0 → schedule s = doFirstSchedule s) ∧
    countEnqueue (doFirstSchedule s).log = countEnqueue s.log + 1 ∧
    countRemove (doFirstSchedule s).log = countRemove s.log + 1 ∧
    (doFirstSchedule s).threads = [] ∧
    ∀ ops : List Op, (∀ op ∈ ops, op.onEntry = true) →
      countEnqueue (run (doFirstSchedule s) ops).log = countEnqueue s.log + 1 ∧
      (run (doFirstSchedule s) ops).t.cancelled = true ∧
      armedCount (run (doFirstSchedule s) ops) = 0 := by
  have key := doFirstSchedule_one_shot s r hp hc hr hi
  have hE : countEnqueue (doFirstSchedule s).log = countEnqueue s.log + 1 := by
    rw [key]; simp [countEnqueue]
  refine ⟨key, ?_, hE, ?_, ?_, ?_⟩
  · intro hf
    simp [schedule, hf]
  · rw [key]; simp [countRemove]
  · rw [key]; exact hth
  · intro ops ho
    have hcan : (doFirstSchedule s).t.cancelled = true := by rw [key]
    have harm : armedCount (doFirstSchedule s) = 0 := by rw [key]; simp [armedCount, hth]
    obtain ⟨h1, h2, h3⟩ := run_of_cancelled ops (doFirstSchedule s) ho hcan
    exact ⟨by omega, h1, by omega⟩

/-- Witness of C3: `firstInMs = 0`, `intervalInMs = 0`; when `schedule` returns
there is one submission and the entry is disposed. -/
theorem C3_one_shot_fires_once_witness :
    schedule (Sys.fresh ⟨"id", some 7, 0, 0, Task.zero, false⟩)
      = ⟨⟨"id", some 7, 0, 0, Task.zero, true⟩, 1,
          [Event.enqueueWithTask 7 Task.zero, Event.remove 7, Event.taskPoolPut Task.zero,
            Event.timerTaskPoolPut], [], false⟩ :=
  ((C3_one_shot_fires_once (Sys.fresh ⟨"id", some 7, 0, 0, Task.zero, false⟩) 7
      rfl rfl rfl rfl (by decide)).2.1 (by decide)).trans
    (C3_one_shot_fires_once (Sys.fresh ⟨"id", some 7, 0, 0, Task.zero, false⟩) 7
      rfl rfl rfl rfl (by decide)).1

/-- C4 (as stated, refuted): a non-cancelled entry with `firstInMs = 0` and a nil
scheduler; `schedule` panics in `executeOnFiber` and no `EnqueueWithTask` call
is made. -/
theorem C4_counterexample :
    (Sys.fresh ⟨"id", none, 0, 20, Task.zero, false⟩).t.cancelled = false ∧
    (Sys.fresh ⟨"id", none, 0, 20, Task.zero, false⟩).t.firstInMs ≤ 0 ∧
    countEnqueue (schedule (Sys.fresh ⟨"id", none, 0, 20, Task.zero, false⟩)).log = 0 ∧
    (schedule (Sys.fresh ⟨"id", none, 0, 20, Task.zero, false⟩)).panicked = true := by
  decide

/-- C4 (amended): synchronous first firing. On a live process and a non-cancelled
entry with a non-nil scheduler `r` and `firstInMs ≤ 0`, `schedule` first calls
`r.EnqueueWithTask(t.task)` on the caller and only then runs
`doIntervalSchedule`; its log is the old log, that one call, and calls that are
not `EnqueueWithTask`. With `intervalInMs ≤ 0` it returns with the entry
disposed; with `0 < intervalInMs` the entry is not cancelled afterwards, and
when moreover `intervalInMs ≤ 9223372036854` it returns with the ticker
started. -/
theorem C4_first_firing_synchronous (s : Sys) (r : SchedulerRegistry) (hp : s.panicked = false)
    (hc : s.t.cancelled = false) (hr : s.t.scheduler = some r) (hf : s.t.firstInMs ≤ 0) :
    schedule s = doIntervalSchedule (s.emit (Event.enqueueWithTask r s.t.task)) ∧
    countEnqueue (schedule s).log = countEnqueue s.log + 1 ∧
    (∃ rest, (schedule s).log = s.log ++ Event.enqueueWithTask r s.t.task :: rest ∧
      countEnqueue rest = 0) ∧
    (s.t.intervalInMs ≤ 0 →
      schedule s =
        { s with
          t := { s.t with cancelled := true },
          pooled := s.pooled + 1,
          log := s.log ++ [Event.enqueueWithTask r s.t.task, Event.remove r,
            Event.taskPoolPut s.t.task, Event.timerTaskPoolPut] }) ∧
    (0 < s.t.intervalInMs → (schedule s).t.cancelled = false) ∧
    (0 < s.t.intervalInMs → s.t.intervalInMs ≤ maxExactMs →
      schedule s =
        { s with
          log := s.log ++ [Event.enqueueWithTask r s.t.task,
            Event.newTicker (s.t.intervalInMs * 1000000)],
          threads := s.threads ++ [PC.loopCheck] }) := by
  have h0 : schedule s = doIntervalSchedule (s.emit (Event.enqueueWithTask r s.t.task)) := by
    simp [schedule, hf, doFirstSchedule, executeOnFiber, getCancelled, hc, hr, Sys.emit, hp]
  have hdis : s.t.intervalInMs ≤ 0 →
      schedule s =
        { s with
          t := { s.t with cancelled := true },
          pooled := s.pooled + 1,
          log := s.log ++ [Event.enqueueWithTask r s.t.task, Event.remove r,
            Event.taskPoolPut s.t.task, Event.timerTaskPoolPut] } := by
    intro hi
    simp [schedule, hf, doFirstSchedule_one_shot s r hp hc hr hi]
  have hlog : ∃ rest, (schedule s).log = s.log ++ Event.enqueueWithTask r s.t.task :: rest ∧
      countEnqueue rest = 0 := by
    by_cases hi : s.t.intervalInMs ≤ 0
    · rw [hdis hi]
      exact ⟨[Event.remove r, Event.taskPoolPut s.t.task, Event.timerTaskPoolPut],
        by simp, by simp [countEnqueue]⟩
    · rw [h0]
      by_cases hd : msToDuration s.t.intervalInMs ≤ 0
      · exact ⟨[], by simp [doIntervalSchedule, getInterval, Sys.emit, hi, hd, Sys.crash],
          by simp [countEnqueue]⟩
      · exact ⟨[Event.newTicker (msToDuration s.t.intervalInMs)],
          by simp [doIntervalSchedule, getInterval, Sys.emit, hi, hd],
          by simp [countEnqueue]⟩
  refine ⟨h0, ?_, hlog, hdis, ?_, ?_⟩
  · obtain ⟨rest, h1, h2⟩ := hlog
    rw [h1, countEnqueue_append]
    have hcons : countEnqueue (Event.enqueueWithTask r s.t.task :: rest) = countEnqueue rest + 1 := by
      simp [countEnqueue]
    rw [hcons, h2]
  · intro hi
    have hi2 : ¬ s.t.intervalInMs ≤ 0 := by omega
    rw [h0]
    simp only [doIntervalSchedule, getInterval, Sys.emit, hi2, if_false]
    split_ifs <;> simp [hc, Sys.crash]
  · intro hi hm
    have hi2 : ¬ s.t.intervalInMs ≤ 0 := by omega
    have hd := msToDuration_exact _ hi hm
    have hd2 : ¬ s.t.intervalInMs * 1000000 ≤ 0 := by omega
    rw [h0]
    simp [doIntervalSchedule, getInterval, Sys.emit, hi2, hd, hd2]

/-- Witness of C4 (amended): `firstInMs = 0`, `intervalInMs = 20`, scheduler `7`. -/
theorem C4_first_firing_synchronous_witness :
    schedule (Sys.fresh ⟨"id", some 7, 0, 20, Task.zero, false⟩)
      = { Sys.fresh ⟨"id", some 7, 0, 20, Task.zero, false⟩ with
          log := [] ++ [Event.enqueueWithTask 7 Task.zero, Event.newTicker (20 * 1000000)],
          threads := [] ++ [PC.loopCheck] } :=
  (C4_first_firing_synchronous (Sys.fresh ⟨"id", some 7, 0, 20, Task.zero, false⟩) 7
    rfl rfl rfl (by decide)).2.2.2.2.2 (by decide) (by decide)

/-! ## The ticker loop against `Dispose` -/

theorem applyOp_of_panicked (op : Op) (s : Sys) (h : s.panicked = true) : applyOp op s = s := by
  simp [applyOp, h]

theorem run_of_panicked (ops : List Op) (s : Sys) (h : s.panicked = true) : run s ops = s := by
  induction ops with
  | nil => rfl
  | cons op ops ih => rw [run_cons, applyOp_of_panicked op s h, ih]

theorem stepPC_inLoop (pc : PC) (s : Sys) (h : pc.inLoop = true ∨ pc = PC.done) :
    ((stepPC pc s).1.inLoop = true ∨ (stepPC pc s).1 = PC.done) ∧
    (stepPC pc s).2.threads = s.threads ∧
    (pc = PC.loopStop ∨ pc = PC.done → (stepPC pc s).1 = PC.done) := by
  cases hs : s.t.scheduler <;> cases pc <;> simp [PC.inLoop] at h <;>
    simp [stepPC, hs, Sys.emit, Sys.crash, PC.inLoop] <;>
    split_ifs <;> simp

theorem stepPC_inDispose (pc : PC) (s : Sys) (h : pc.inDispose = true) :
    (stepPC pc s).1.inDispose = true ∧ (stepPC pc s).2.threads = s.threads := by
  cases hs : s.t.scheduler <;> cases pc <;> simp [PC.inDispose] at h <;>
    simp [stepPC, hs, Sys.emit, Sys.crash, PC.inDispose, setCancelled, Task.release, release] <;>
    split_ifs <;> simp

theorem Dispose_threads (s : Sys) : (Dispose s).threads = s.threads := by
  cases hc : s.t.cancelled
  · rw [Dispose_of_not_cancelled s hc]
  · rw [Dispose_of_cancelled s hc]

theorem applyOp_shape (op : Op) (s : Sys) (ho : op.loopOrDispose = true) (pc₀ : PC)
    (ds : List PC) (hth : s.threads = pc₀ :: ds) (h₀ : pc₀.inLoop = true ∨ pc₀ = PC.done)
    (hds : ∀ d ∈ ds, d.inDispose = true) :
    ∃ pc₁ ds₁, (applyOp op s).threads = pc₁ :: ds₁ ∧ (pc₁.inLoop = true ∨ pc₁ = PC.done) ∧
      (∀ d ∈ ds₁, d.inDispose = true) ∧
      (pc₀ = PC.loopStop ∨ pc₀ = PC.done → pc₁ = PC.loopStop ∨ pc₁ = PC.done) := by
  unfold applyOp
  by_cases hp : s.panicked = true
  · simp only [hp, if_true]
    exact ⟨pc₀, ds, hth, h₀, hds, id⟩
  · have hp : s.panicked = false := by simpa using hp
    simp only [hp, Bool.false_eq_true, if_false]
    cases op with
    | schedule => simp [Op.loopOrDispose] at ho
    | doFirstSchedule => simp [Op.loopOrDispose] at ho
    | doIntervalSchedule => simp [Op.loopOrDispose] at ho
    | executeOnFiber => simp [Op.loopOrDispose] at ho
    | release => simp [Op.loopOrDispose] at ho
    | goSchedule => simp [Op.loopOrDispose] at ho
    | newTimerTask _ _ _ _ _ _ => simp [Op.loopOrDispose] at ho
    | Identify => exact ⟨pc₀, ds, hth, h₀, hds, id⟩
    | getInterval => exact ⟨pc₀, ds, hth, h₀, hds, id⟩
    | getCancelled => exact ⟨pc₀, ds, hth, h₀, hds, id⟩
    | Dispose => exact ⟨pc₀, ds, by rw [Dispose_threads, hth], h₀, hds, id⟩
    | goDispose =>
      refine ⟨pc₀, ds ++ [PC.disposeCheck], by simp [hth], h₀, ?_, id⟩
      intro d hd
      rcases List.mem_append.mp hd with hd | hd
      · exact hds d hd
      · simp at hd; subst hd; rfl
    | step tid =>
      cases tid with
      | zero =>
        obtain ⟨k1, k2, k3⟩ := stepPC_inLoop pc₀ s h₀
        refine ⟨(stepPC pc₀ s).1, ds, ?_, k1, hds, fun h => Or.inr (k3 h)⟩
        simp [step, hth, k2]
      | succ n =>
        cases hn : ds[n]? with
        | none =>
          refine ⟨pc₀, ds, ?_, h₀, hds, id⟩
          simp [step, hth, hn]
        | some d =>
          have hmem : d ∈ ds := List.getElem?_mem hn
          obtain ⟨k1, k2⟩ := stepPC_inDispose d s (hds d hmem)
          refine ⟨pc₀, ds.set n (stepPC d s).1, ?_, h₀, ?_, id⟩
          · simp [step, hth, hn, k2]
          · intro x hx
            rcases List.mem_or_eq_of_mem_set hx with hx | hx
            · exact hds x hx
            · rw [hx]; exact k1

theorem run_shape (ops : List Op) :
    ∀ (s : Sys), (∀ op ∈ ops, op.loopOrDispose = true) → LoopShape s →
      LoopShape (run s ops) ∧ (loopExited s → loopExited (run s ops)) := by
  induction ops with
  | nil => intro s _ h; exact ⟨h, id⟩
  | cons op ops ih =>
    intro s ho h
    obtain ⟨pc₀, ds, hth, h₀, hds⟩ := h
    obtain ⟨pc₁, ds₁, g1, g2, g3, g4⟩ :=
      applyOp_shape op s (ho op (by simp)) pc₀ ds hth h₀ hds
    obtain ⟨i1, i2⟩ := ih (applyOp op s) (fun o hm => ho o (by simp [hm])) ⟨pc₁, ds₁, g1, g2, g3⟩
    rw [run_cons]
    refine ⟨i1, fun hex => i2 ?_⟩
    simp only [loopExited, hth, g1] at hex ⊢
    simp at hex ⊢
    exact g4 hex

theorem armedCount_of_shape (s : Sys) (h : LoopShape s) : armedCount s ≤ 1 := by
  obtain ⟨pc₀, ds, hth, _, hds⟩ := h
  have hz : List.countP PC.armed ds = 0 := by
    apply countP_armed_eq_zero
    intro q hq
    have := hds q hq
    cases q <;> simp [PC.inDispose] at this <;> rfl
  simp only [armedCount, hth, List.countP_cons, hz]
  split_ifs <;> omega

theorem onEntry_of_loopOrDispose (op : Op) (h : op.loopOrDispose = true) : op.onEntry = true := by
  cases op <;> simp [Op.loopOrDispose] at h <;> rfl

theorem loopStarted_cases (t : timerTask) (pooled : Nat) (log : List Event)
    (hi : 0 < t.intervalInMs) :
    (loopStarted t pooled log).panicked = true ∨ LoopShape (loopStarted t pooled log) := by
  have hi2 : ¬ t.intervalInMs ≤ 0 := by omega
  by_cases hd : msToDuration t.intervalInMs ≤ 0
  · left
    simp [loopStarted, doIntervalSchedule, getInterval, hi2, hd, Sys.crash]
  · right
    refine ⟨PC.loopCheck, [], ?_, Or.inl rfl, by simp⟩
    simp [loopStarted, doIntervalSchedule, getInterval, hi2, hd, Sys.emit]

theorem stepPC_loop_facts (pc : PC) (s : Sys) (h : pc.inLoop = true ∨ pc = PC.done) :
    ((stepPC pc s).2.panicked = true → s.panicked = true ∨ (stepPC pc s).1 = PC.done) ∧
    ((stepPC pc s).1 = PC.done →
      pc = PC.done ∨ (stepPC pc s).2.panicked = true ∨
        Event.tickerStop ∈ (stepPC pc s).2.log) ∧
    (∀ e ∈ s.log, e ∈ (stepPC pc s).2.log) ∧
    (pc = PC.done → (stepPC pc s).2.panicked = s.panicked) ∧
    (s.t.cancelled = true → (stepPC pc s).1.loopRank ≤ pc.loopRank - 1) ∧
    (s.t.cancelled = true → pc ≠ PC.loopEnqueue →
      (stepPC pc s).2.panicked = s.panicked ∧ (stepPC pc s).1 ≠ PC.loopEnqueue) := by
  cases hs : s.t.scheduler <;> cases hc : s.t.cancelled <;> cases pc <;>
    simp [PC.inLoop] at h <;>
    simp [stepPC, hs, hc, getCancelled, Sys.emit, Sys.crash, PC.loopRank] <;>
    intro e he <;> simp [he]

theorem stepPC_dispose_facts (pc : PC) (s : Sys) (h : pc.inDispose = true) :
    (stepPC pc s).2.panicked = s.panicked ∧ (∀ e ∈ s.log, e ∈ (stepPC pc s).2.log) := by
  cases hs : s.t.scheduler <;> cases hc : s.t.cancelled <;> cases pc <;>
    simp [PC.inDispose] at h <;>
    simp [stepPC, hs, hc, getCancelled, setCancelled, Task.release, release, Sys.emit] <;>
    intro e he <;> simp [he]

theorem Dispose_facts (s : Sys) :
    (Dispose s).panicked = s.panicked ∧ (∀ e ∈ s.log, e ∈ (Dispose s).log) := by
  cases hc : s.t.cancelled
  · rw [Dispose_of_not_cancelled s hc]
    refine ⟨rfl, ?_⟩
    intro e he
    simp [he]
  · rw [Dispose_of_cancelled s hc]
    exact ⟨rfl, fun e he => he⟩

theorem applyOp_loop (op : Op) (s : Sys) (ho : op.loopOrDispose = true) (pc₀ : PC)
    (ds : List PC) (hth : s.threads = pc₀ :: ds) (h₀ : pc₀.inLoop = true ∨ pc₀ = PC.done)
    (hds : ∀ d ∈ ds, d.inDispose = true) (hP : s.panicked = true → pc₀ = PC.done)
    (hK : pc₀ = PC.done → s.panicked = true ∨ Event.tickerStop ∈ s.log) :
    ∃ pc₁ ds₁, (applyOp op s).threads = pc₁ :: ds₁ ∧ (pc₁.inLoop = true ∨ pc₁ = PC.done) ∧
      (∀ d ∈ ds₁, d.inDispose = true) ∧
      ((applyOp op s).panicked = true → pc₁ = PC.done) ∧
      (pc₁ = PC.done → (applyOp op s).panicked = true ∨ Event.tickerStop ∈ (applyOp op s).log) ∧
      (s.t.cancelled = true →
        pc₁.loopRank ≤ pc₀.loopRank - countStepZero [op]) ∧
      (s.t.cancelled = true → s.panicked = false → pc₀ ≠ PC.loopEnqueue →
        (applyOp op s).panicked = false ∧ pc₁ ≠ PC.loopEnqueue) := by
  by_cases hp : s.panicked = true
  · rw [applyOp_of_panicked op s hp]
    refine ⟨pc₀, ds, hth, h₀, hds, hP, hK, ?_, ?_⟩
    · intro _
      rw [hP hp]
      simp [PC.loopRank]
    · intro _ hn
      rw [hp] at hn
      exact Bool.noConfusion hn
  · have hp : s.panicked = false := by simpa using hp
    have hpt : ¬ s.panicked = true := by simp [hp]
    have frame : ∀ s₁ : Sys, s₁.panicked = s.panicked → (∀ e ∈ s.log, e ∈ s₁.log) →
        ∀ ds₁ : List PC, s₁.threads = pc₀ :: ds₁ → (∀ d ∈ ds₁, d.inDispose = true) →
        countStepZero [op] = 0 →
        ∃ pc₁ ds₁, s₁.threads = pc₁ :: ds₁ ∧ (pc₁.inLoop = true ∨ pc₁ = PC.done) ∧
          (∀ d ∈ ds₁, d.inDispose = true) ∧
          (s₁.panicked = true → pc₁ = PC.done) ∧
          (pc₁ = PC.done → s₁.panicked = true ∨ Event.tickerStop ∈ s₁.log) ∧
          (s.t.cancelled = true → pc₁.loopRank ≤ pc₀.loopRank - countStepZero [op]) ∧
          (s.t.cancelled = true → s.panicked = false → pc₀ ≠ PC.loopEnqueue →
            s₁.panicked = false ∧ pc₁ ≠ PC.loopEnqueue) := by
      intro s₁ e1 e2 ds₁ e3 e4 e5
      refine ⟨pc₀, ds₁, e3, h₀, e4, ?_, ?_, ?_, ?_⟩
      · intro h; rw [e1] at h; exact absurd h hpt
      · intro h
        rcases hK h with k | k
        · exact absurd k hpt
        · exact Or.inr (e2 _ k)
      · intro _; rw [e5]; simp
      · intro _ _ hne
        exact ⟨by rw [e1]; exact hp, hne⟩
    cases op with
    | schedule => simp [Op.loopOrDispose] at ho
    | doFirstSchedule => simp [Op.loopOrDispose] at ho
    | doIntervalSchedule => simp [Op.loopOrDispose] at ho
    | executeOnFiber => simp [Op.loopOrDispose] at ho
    | release => simp [Op.loopOrDispose] at ho
    | goSchedule => simp [Op.loopOrDispose] at ho
    | newTimerTask _ _ _ _ _ _ => simp [Op.loopOrDispose] at ho
    | Identify =>
      have e : applyOp Op.Identify s = s := by simp [applyOp, hp]
      rw [e]
      exact frame s rfl (fun e he => he) ds hth hds (by simp [countStepZero])
    | getInterval =>
      have e : applyOp Op.getInterval s = s := by simp [applyOp, hp]
      rw [e]
      exact frame s rfl (fun e he => he) ds hth hds (by simp [countStepZero])
    | getCancelled =>
      have e : applyOp Op.getCancelled s = s := by simp [applyOp, hp]
      rw [e]
      exact frame s rfl (fun e he => he) ds hth hds (by simp [countStepZero])
    | Dispose =>
      have e : applyOp Op.Dispose s = Dispose s := by simp [applyOp, hp]
      rw [e]
      exact frame (Dispose s) (Dispose_facts s).1 (Dispose_facts s).2 ds
        (by rw [Dispose_threads, hth]) hds (by simp [countStepZero])
    | goDispose =>
      have e : applyOp Op.goDispose s = { s with threads := s.threads ++ [PC.disposeCheck] } := by
        simp [applyOp, hp]
      rw [e]
      refine frame _ rfl (fun e he => he) (ds ++ [PC.disposeCheck]) (by simp [hth]) ?_
        (by simp [countStepZero])
      intro d hd
      rcases List.mem_append.mp hd with hd | hd
      · exact hds d hd
      · simp at hd; subst hd; rfl
    | step tid =>
      have e : applyOp (Op.step tid) s = step tid s := by simp [applyOp, hp]
      rw [e]
      cases tid with
      | zero =>
        obtain ⟨k1, k2, _⟩ := stepPC_inLoop pc₀ s h₀
        obtain ⟨f1, f2, f3, f4, f5, f6⟩ := stepPC_loop_facts pc₀ s h₀
        refine ⟨(stepPC pc₀ s).1, ds, by simp [step, hth, k2], k1, hds, ?_, ?_, ?_, ?_⟩
        · intro h
          have h : (stepPC pc₀ s).2.panicked = true := by simpa [step, hth] using h
          rcases f1 h with k | k
          · exact absurd k hpt
          · exact k
        · intro h
          rcases f2 h with k | k | k
          · rcases hK k with j | j
            · exact absurd j hpt
            · right
              have := f3 _ j
              simpa [step, hth] using this
          · left; simpa [step, hth] using k
          · right; simpa [step, hth] using k
        · intro hc
          have := f5 hc
          simpa [countStepZero] using this
        · intro hc _ hne
          obtain ⟨g1, g2⟩ := f6 hc hne
          refine ⟨?_, g2⟩
          have : (stepPC pc₀ s).2.panicked = false := by rw [g1]; exact hp
          simpa [step, hth] using this
      | succ n =>
        cases hn : ds[n]? with
        | none =>
          exact frame (step (n + 1) s) (by simp [step, hth, hn]) (by simp [step, hth, hn]) ds
            (by simp [step, hth, hn]) hds (by simp [countStepZero])
        | some d =>
          have hmem : d ∈ ds := List.getElem?_mem hn
          obtain ⟨k1, k2⟩ := stepPC_inDispose d s (hds d hmem)
          obtain ⟨f1, f2⟩ := stepPC_dispose_facts d s (hds d hmem)
          refine frame (step (n + 1) s) (by simpa [step, hth, hn] using f1)
            (by simpa [step, hth, hn] using f2) (ds.set n (stepPC d s).1)
            (by simp [step, hth, hn, k2]) ?_ (by simp [countStepZero])
          intro x hx
          rcases List.mem_or_eq_of_mem_set hx with hx | hx
          · exact hds x hx
          · rw [hx]; exact k1

theorem countStepZero_cons (op : Op) (ops : List Op) :
    countStepZero (op :: ops) = countStepZero [op] + countStepZero ops := by
  simp only [countStepZero, List.countP_cons, List.countP_nil]
  omega

theorem loopRank_le_four (pc : PC) : pc.loopRank ≤ 4 := by
  cases pc <;> simp [PC.loopRank]

theorem done_of_loopRank_zero (pc : PC) (h : pc.inLoop = true ∨ pc = PC.done)
    (hr : pc.loopRank = 0) : pc = PC.done := by
  cases pc <;> simp [PC.inLoop, PC.loopRank] at h hr ⊢

theorem run_loop (ops : List Op) :
    ∀ (s : Sys) (pc₀ : PC) (ds : List PC), (∀ op ∈ ops, op.loopOrDispose = true) →
      s.threads = pc₀ :: ds → (pc₀.inLoop = true ∨ pc₀ = PC.done) →
      (∀ d ∈ ds, d.inDispose = true) → (s.panicked = true → pc₀ = PC.done) →
      (pc₀ = PC.done → s.panicked = true ∨ Event.tickerStop ∈ s.log) →
      ∃ pc₁ ds₁, (run s ops).threads = pc₁ :: ds₁ ∧ (pc₁.inLoop = true ∨ pc₁ = PC.done) ∧
        (∀ d ∈ ds₁, d.inDispose = true) ∧
        ((run s ops).panicked = true → pc₁ = PC.done) ∧
        (pc₁ = PC.done → (run s ops).panicked = true ∨ Event.tickerStop ∈ (run s ops).log) ∧
        (s.t.cancelled = true → pc₁.loopRank ≤ pc₀.loopRank - countStepZero ops) ∧
        (s.t.cancelled = true → s.panicked = false → pc₀ ≠ PC.loopEnqueue →
          (run s ops).panicked = false ∧ pc₁ ≠ PC.loopEnqueue) := by
  induction ops with
  | nil =>
    intro s pc₀ ds _ hth h₀ hds hP hK
    exact ⟨pc₀, ds, hth, h₀, hds, hP, hK, fun _ => by simp [countStepZero],
      fun _ hp hne => ⟨hp, hne⟩⟩
  | cons op ops ih =>
    intro s pc₀ ds ho hth h₀ hds hP hK
    have hop := ho op (by simp)
    obtain ⟨pc₁, ds₁, a1, a2, a3, a4, a5, a6, a7⟩ := applyOp_loop op s hop pc₀ ds hth h₀ hds hP hK
    obtain ⟨pc₂, ds₂, b1, b2, b3, b4, b5, b6, b7⟩ :=
      ih (applyOp op s) pc₁ ds₁ (fun o hm => ho o (by simp [hm])) a1 a2 a3 a4 a5
    rw [run_cons]
    refine ⟨pc₂, ds₂, b1, b2, b3, b4, b5, ?_, ?_⟩
    · intro hc
      have hc₁ := (applyOp_of_cancelled op s (onEntry_of_loopOrDispose op hop) hc).1
      have h1 := a6 hc
      have h2 := b6 hc₁
      rw [countStepZero_cons]
      omega
    · intro hc hp hne
      have hc₁ := (applyOp_of_cancelled op s (onEntry_of_loopOrDispose op hop) hc).1
      obtain ⟨g1, g2⟩ := a7 hc hp hne
      exact b7 hc₁ g1 g2

theorem armedCount_zero_of_shape (s : Sys) (pc₀ : PC) (ds : List PC)
    (hth : s.threads = pc₀ :: ds) (h₀ : pc₀.inLoop = true ∨ pc₀ = PC.done)
    (hds : ∀ d ∈ ds, d.inDispose = true) (hne : pc₀ ≠ PC.loopEnqueue) : armedCount s = 0 := by
  have hz : List.countP PC.armed ds = 0 := by
    apply countP_armed_eq_zero
    intro q hq
    have := hds q hq
    cases q <;> simp [PC.inDispose] at this <;> rfl
  have h0 : pc₀.armed = false := by
    cases pc₀ <;> simp [PC.inLoop] at h₀ hne ⊢ <;> rfl
  simp [armedCount, hth, List.countP_cons, hz, h0]

theorem loopStarted_threads (t : timerTask) (pooled : Nat) (log : List Event)
    (hi : 0 < t.intervalInMs) :
    ((loopStarted t pooled log).panicked = true ∧ (loopStarted t pooled log).threads = []) ∨
    ((loopStarted t pooled log).panicked = false ∧
      (loopStarted t pooled log).threads = [PC.loopCheck]) := by
  have hi2 : ¬ t.intervalInMs ≤ 0 := by omega
  by_cases hd : msToDuration t.intervalInMs ≤ 0
  · left
    simp [loopStarted, doIntervalSchedule, getInterval, hi2, hd, Sys.crash]
  · right
    simp [loopStarted, doIntervalSchedule, getInterval, hi2, hd, Sys.emit]

/-- C6: at most one stray firing. Take an entry with `0 < intervalInMs` whose
ticker loop has just been started by `doIntervalSchedule` (goroutine `0`), and
let any sequence `ops₁` and then any sequence `ops₂` of atomic goroutine
actions, `Dispose` calls (run at once or concurrently, any number of them) and
reads happen. If the flag is set after `ops₁`, at most one `EnqueueWithTask`
call is made during `ops₂`, and none at all (nor a panic) unless the loop
already stood right before that call. With the flag set every action of the
loop brings it strictly closer to returning and no other action moves it back:
from `<-interval.C` it goes to the check in `executeOnFiber`, from there (or
from the call) to the loop condition, from there to `interval.Stop()`, from
there it returns; so it never waits for a tick again once it has observed the
flag, after four of its own actions in any interleaving it has returned, and
whenever it has returned in a process that did not panic the ticker has been
stopped. While the flag is clear the loop goes from its condition to
`<-interval.C`, on to the check in `executeOnFiber` and on to the call. -/
theorem C6_at_most_one_stray_firing (t : timerTask) (pooled : Nat) (log : List Event)
    (hi : 0 < t.intervalInMs) (ops₁ ops₂ : List Op)
    (h₁ : ∀ op ∈ ops₁, op.loopOrDispose = true) (h₂ : ∀ op ∈ ops₂, op.loopOrDispose = true)
    (s₁ s₂ : Sys) (e₁ : s₁ = run (loopStarted t pooled log) ops₁) (e₂ : s₂ = run s₁ ops₂) :
    (s₁.t.cancelled = true → countEnqueue s₂.log ≤ countEnqueue s₁.log + 1) ∧
    (s₁.panicked = false → s₁.t.cancelled = true → s₁.threads[0]? = some PC.loopCheck →
      (applyOp (Op.step 0) s₁).threads[0]? = some PC.loopStop ∧
      (applyOp (Op.step 0) s₁).log = s₁.log) ∧
    (loopExited s₁ → loopExited s₂ ∧ s₂.threads[0]? ≠ some PC.loopWait) ∧
    (s₁.panicked = false → s₁.threads[0]? = some PC.loopStop →
      (applyOp (Op.step 0) s₁).threads[0]? = some PC.done ∧
      (applyOp (Op.step 0) s₁).log = s₁.log ++ [Event.tickerStop]) ∧
    (s₁.panicked = false → s₁.t.cancelled = true → s₁.threads[0]? = some PC.loopWait →
      (applyOp (Op.step 0) s₁).threads[0]? = some PC.loopExecCheck ∧
      (applyOp (Op.step 0) s₁).log = s₁.log) ∧
    (s₁.panicked = false → s₁.t.cancelled = true → s₁.threads[0]? = some PC.loopExecCheck →
      (applyOp (Op.step 0) s₁).threads[0]? = some PC.loopCheck ∧
      (applyOp (Op.step 0) s₁).log = s₁.log) ∧
    (s₁.panicked = false → s₁.threads[0]? = some PC.loopEnqueue →
      ∀ r : SchedulerRegistry, s₁.t.scheduler = some r →
        (applyOp (Op.step 0) s₁).threads[0]? = some PC.loopCheck ∧
        (applyOp (Op.step 0) s₁).log = s₁.log ++ [Event.enqueueWithTask r s₁.t.task]) ∧
    (s₁.t.cancelled = true → loopRankOf s₂ ≤ loopRankOf s₁ - countStepZero ops₂) ∧
    (s₁.t.cancelled = true → 4 ≤ countStepZero ops₂ →
      s₂.threads[0]? = some PC.done ∨ s₂.panicked = true) ∧
    (s₂.threads[0]? = some PC.done → s₂.panicked = true ∨ Event.tickerStop ∈ s₂.log) ∧
    (s₁.t.cancelled = true → s₁.panicked = false → s₁.threads[0]? ≠ some PC.loopEnqueue →
      s₂.panicked = false ∧ countEnqueue s₂.log = countEnqueue s₁.log ∧
      s₂.threads[0]? ≠ some PC.loopEnqueue) ∧
    (s₁.panicked = false → s₁.t.cancelled = false →
      (s₁.threads[0]? = some PC.loopCheck →
        (applyOp (Op.step 0) s₁).threads[0]? = some PC.loopWait ∧
        (applyOp (Op.step 0) s₁).log = s₁.log) ∧
      (s₁.threads[0]? = some PC.loopWait →
        (applyOp (Op.step 0) s₁).threads[0]? = some PC.loopExecCheck ∧
        (applyOp (Op.step 0) s₁).log = s₁.log) ∧
      (s₁.threads[0]? = some PC.loopExecCheck →
        (applyOp (Op.step 0) s₁).threads[0]? = some PC.loopEnqueue ∧
        (applyOp (Op.step 0) s₁).log = s₁.log)) := by
  have hJ : s₁.panicked = true ∨ LoopShape s₁ := by
    rcases loopStarted_cases t pooled log hi with hp | hsh
    · left; rw [e₁, run_of_panicked ops₁ _ hp]; exact hp
    · right; rw [e₁]; exact (run_shape ops₁ _ h₁ hsh).1
  have hstep : ∀ pc : PC, s₁.panicked = false → s₁.threads[0]? = some pc →
      (applyOp (Op.step 0) s₁).threads[0]? = some (stepPC pc s₁).1 ∧
      (applyOp (Op.step 0) s₁).log = (stepPC pc s₁).2.log := by
    intro pc hp h0
    cases hth : s₁.threads with
    | nil => simp [hth] at h0
    | cons pc₀ ds =>
      simp [hth] at h0
      subst h0
      obtain ⟨sp, hsp, _⟩ := stepPC_threads pc₀ s₁
      simp [applyOp, hp, step, hth, hsp]
  have hrun : (s₁.panicked = true ∧ s₁.threads = [] ∧ s₂ = s₁) ∨
      ∃ pc₁ ds₁ pc₂ ds₂, s₁.threads = pc₁ :: ds₁ ∧ s₂.threads = pc₂ :: ds₂ ∧
        (pc₁.inLoop = true ∨ pc₁ = PC.done) ∧ (∀ d ∈ ds₁, d.inDispose = true) ∧
        (pc₂.inLoop = true ∨ pc₂ = PC.done) ∧
        (pc₂ = PC.done → s₂.panicked = true ∨ Event.tickerStop ∈ s₂.log) ∧
        (s₁.t.cancelled = true → pc₂.loopRank ≤ pc₁.loopRank - countStepZero ops₂) ∧
        (s₁.t.cancelled = true → s₁.panicked = false → pc₁ ≠ PC.loopEnqueue →
          s₂.panicked = false ∧ pc₂ ≠ PC.loopEnqueue) := by
    rcases loopStarted_threads t pooled log hi with ⟨hp, hth⟩ | ⟨hp, hth⟩
    · left
      have hs₁ : s₁ = loopStarted t pooled log := by rw [e₁, run_of_panicked ops₁ _ hp]
      have hp₁ : s₁.panicked = true := by rw [hs₁]; exact hp
      exact ⟨hp₁, by rw [hs₁]; exact hth, by rw [e₂, run_of_panicked ops₂ _ hp₁]⟩
    · right
      obtain ⟨pc₁, ds₁, a1, a2, a3, a4, a5, _, _⟩ :=
        run_loop ops₁ (loopStarted t pooled log) PC.loopCheck [] h₁ hth (Or.inl rfl)
          (by simp) (by intro h; rw [hp] at h; exact Bool.noConfusion h)
          (by intro h; exact PC.noConfusion h)
      rw [← e₁] at a1 a4 a5
      obtain ⟨pc₂, ds₂, b1, b2, _, _, b5, b6, b7⟩ :=
        run_loop ops₂ s₁ pc₁ ds₁ h₂ a1 a2 a3 a4 a5
      rw [← e₂] at b1 b5 b7
      exact ⟨pc₁, ds₁, pc₂, ds₂, a1, b1, a2, a3, b2, b5, b6, b7⟩
  refine ⟨?_, ?_, ?_, ?_, ?_, ?_, ?_, ?_, ?_, ?_, ?_, ?_⟩
  rotate_left 11
  · intro hp hc
    refine ⟨?_, ?_, ?_⟩ <;> intro h0 <;> obtain ⟨k1, k2⟩ := hstep _ hp h0 <;> rw [k1, k2] <;>
      simp [stepPC, getCancelled, hc]
  · intro hc
    rcases hJ with hp | hsh
    · rw [e₂, run_of_panicked ops₂ _ hp]; omega
    · have ha := armedCount_of_shape s₁ hsh
      obtain ⟨_, k2, _⟩ :=
        run_of_cancelled ops₂ s₁ (fun op hm => onEntry_of_loopOrDispose op (h₂ op hm)) hc
      rw [e₂]
      omega
  · intro hp hc h0
    obtain ⟨k1, k2⟩ := hstep _ hp h0
    rw [k1, k2]
    simp [stepPC, getCancelled, hc]
  · intro hex
    have hex₂ : loopExited s₂ := by
      rcases hJ with hp | hsh
      · rw [e₂, run_of_panicked ops₂ _ hp]; exact hex
      · rw [e₂]; exact (run_shape ops₂ _ h₂ hsh).2 hex
    refine ⟨hex₂, ?_⟩
    intro hw
    rcases hex₂ with h | h <;> rw [h] at hw <;> simp at hw
  · intro hp h0
    obtain ⟨k1, k2⟩ := hstep _ hp h0
    rw [k1, k2]
    simp [stepPC, Sys.emit]
  · intro hp hc h0
    obtain ⟨k1, k2⟩ := hstep _ hp h0
    rw [k1, k2]
    simp [stepPC]
  · intro hp hc h0
    obtain ⟨k1, k2⟩ := hstep _ hp h0
    rw [k1, k2]
    simp [stepPC, getCancelled, hc]
  · intro hp h0 r hr
    obtain ⟨k1, k2⟩ := hstep _ hp h0
    rw [k1, k2]
    simp [stepPC, hr, Sys.emit]
  · intro hc
    rcases hrun with ⟨_, hth, hs⟩ | ⟨pc₁, ds₁, pc₂, ds₂, a1, b1, _, _, _, _, b6, _⟩
    · rw [hs]; simp [loopRankOf, hth]
    · have := b6 hc
      simpa [loopRankOf, a1, b1] using this
  · intro hc h4
    rcases hrun with ⟨hp, _, hs⟩ | ⟨pc₁, ds₁, pc₂, ds₂, a1, b1, _, _, b2, _, b6, _⟩
    · right; rw [hs]; exact hp
    · left
      have h := b6 hc
      have h' := loopRank_le_four pc₁
      have hz : pc₂.loopRank = 0 := by omega
      rw [b1, done_of_loopRank_zero pc₂ b2 hz]
      simp
  · intro hd
    rcases hrun with ⟨hp, _, hs⟩ | ⟨pc₁, ds₁, pc₂, ds₂, a1, b1, _, _, _, b5, _, _⟩
    · left; rw [hs]; exact hp
    · apply b5
      simpa [b1] using hd
  · intro hc hp hne
    rcases hrun with ⟨hp', _, _⟩ | ⟨pc₁, ds₁, pc₂, ds₂, a1, b1, a2, a3, _, _, _, b7⟩
    · rw [hp] at hp'; exact Bool.noConfusion hp'
    · have hne₁ : pc₁ ≠ PC.loopEnqueue := by
        intro h
        apply hne
        rw [a1, h]
        simp
      obtain ⟨g1, g2⟩ := b7 hc hp hne₁
      have ha := armedCount_zero_of_shape s₁ pc₁ ds₁ a1 a2 a3 hne₁
      obtain ⟨_, k2, k3⟩ :=
        run_of_cancelled ops₂ s₁ (fun op hm => onEntry_of_loopOrDispose op (h₂ op hm)) hc
      rw [← e₂] at k2 k3
      refine ⟨g1, by omega, ?_⟩
      intro h
      apply g2
      simpa [b1] using h

/-- Witness of C6, where the bound is attained: `Dispose` runs after the loop
has passed the check inside `executeOnFiber`; one more `EnqueueWithTask`
follows, then the loop observes the flag, stops the ticker and returns. -/
theorem C6_at_most_one_stray_firing_witness :
    (run (loopStarted ⟨"id", some 7, 0, 20, Task.zero, false⟩ 0 [])
        [Op.step 0, Op.step 0, Op.step 0, Op.Dispose]).t.cancelled = true ∧
    countEnqueue (run (run (loopStarted ⟨"id", some 7, 0, 20, Task.zero, false⟩ 0 [])
        [Op.step 0, Op.step 0, Op.step 0, Op.Dispose])
        [Op.step 0, Op.step 0, Op.step 0, Op.step 0]).log
      ≤ countEnqueue (run (loopStarted ⟨"id", some 7, 0, 20, Task.zero, false⟩ 0 [])
        [Op.step 0, Op.step 0, Op.step 0, Op.Dispose]).log + 1 :=
  ⟨by decide,
   (C6_at_most_one_stray_firing ⟨"id", some 7, 0, 20, Task.zero, false⟩ 0 [] (by decide)
      [Op.step 0, Op.step 0, Op.step 0, Op.Dispose]
      [Op.step 0, Op.step 0, Op.step 0, Op.step 0]
      (by decide) (by decide) _ _ rfl rfl).1 (by decide)⟩

/-- The stray firing of C6 does occur: in the run of the witness the log after
`Dispose` has set the flag gains exactly one `EnqueueWithTask`, and the loop has
then stopped the ticker and returned. -/
theorem stray_firing_attained :
    run (loopStarted ⟨"id", some 7, 0, 20, Task.zero, false⟩ 0 [])
        [Op.step 0, Op.step 0, Op.step 0, Op.Dispose,
          Op.step 0, Op.step 0, Op.step 0, Op.step 0]
      = ⟨⟨"id", some 7, 0, 20, Task.zero, true⟩, 1,
          [Event.newTicker 20000000, Event.remove 7, Event.taskPoolPut Task.zero,
            Event.timerTaskPoolPut, Event.enqueueWithTask 7 Task.zero, Event.tickerStop],
          [PC.done], false⟩ := by
  decide

/-! ## Whole calls are uninterrupted runs of atomic actions -/

theorem runThread_Dispose (s : Sys) (hp : s.panicked = false) :
    runThread 5 PC.disposeCheck s = (PC.done, Dispose s) := by
  cases hc : s.t.cancelled <;> cases hs : s.t.scheduler <;>
    simp [runThread, stepPC, Dispose, getCancelled, setCancelled, Task.release, release,
      Sys.emit, hp, hc, hs]

theorem runThread_schedule (s : Sys) (hp : s.panicked = false) :
    (runThread 9 PC.scheduleStart s).2 = schedule s := by
  by_cases hf : s.t.firstInMs ≤ 0 <;> by_cases hi : s.t.intervalInMs ≤ 0 <;>
    by_cases hd : msToDuration s.t.intervalInMs ≤ 0 <;>
    cases hc : s.t.cancelled <;> cases hs : s.t.scheduler <;>
    simp [runThread, stepPC, schedule, doFirstSchedule, executeOnFiber, doIntervalSchedule,
      Dispose, getCancelled, getInterval, setCancelled, Task.release, release, Sys.emit,
      Sys.crash, hp, hc, hs, hf, hi, hd]

theorem runThread_doFirstSchedule (s : Sys) (hp : s.panicked = false) :
    (runThread 9 PC.firstWait s).2 = doFirstSchedule s := by
  by_cases hi : s.t.intervalInMs ≤ 0 <;>
    by_cases hd : msToDuration s.t.intervalInMs ≤ 0 <;>
    cases hc : s.t.cancelled <;> cases hs : s.t.scheduler <;>
    simp [runThread, stepPC, doFirstSchedule, executeOnFiber, doIntervalSchedule,
      Dispose, getCancelled, getInterval, setCancelled, Task.release, release, Sys.emit,
      Sys.crash, hp, hc, hs, hi, hd]

/-! ## Concurrent disposal and pool reuse -/

/-- C2 (the code at the failing input): two goroutines call `Dispose` on a fresh
non-cancelled entry and alternate one atomic action each. Both read the flag as
false before either sets it, so `Remove` is called twice, the `Task` is put into
`taskPool` twice and the entry into `timerTaskPool` twice. -/
theorem C2_concurrent_dispose_releases_twice :
    run (Sys.fresh ⟨"id", some 7, 0, 0, Task.zero, false⟩)
        [Op.goDispose, Op.goDispose, Op.step 0, Op.step 1, Op.step 0, Op.step 1,
          Op.step 0, Op.step 1, Op.step 0, Op.step 1, Op.step 0, Op.step 1]
      = ⟨⟨"id", some 7, 0, 0, Task.zero, true⟩, 2,
          [Event.remove 7, Event.remove 7, Event.taskPoolPut Task.zero,
            Event.taskPoolPut Task.zero, Event.timerTaskPoolPut, Event.timerTaskPoolPut],
          [PC.done, PC.done], false⟩ ∧
    (run (Sys.fresh ⟨"id", some 7, 0, 0, Task.zero, false⟩)
        [Op.goDispose, Op.goDispose, Op.step 0, Op.step 1]).threads
      = [PC.disposeSet, PC.disposeSet] ∧
    countRemove (run (Sys.fresh ⟨"id", some 7, 0, 0, Task.zero, false⟩)
        [Op.goDispose, Op.goDispose, Op.step 0, Op.step 1, Op.step 0, Op.step 1,
          Op.step 0, Op.step 1, Op.step 0, Op.step 1, Op.step 0, Op.step 1]).log = 2 ∧
    countTaskPut (run (Sys.fresh ⟨"id", some 7, 0, 0, Task.zero, false⟩)
        [Op.goDispose, Op.goDispose, Op.step 0, Op.step 1, Op.step 0, Op.step 1,
          Op.step 0, Op.step 1, Op.step 0, Op.step 1, Op.step 0, Op.step 1]).log = 2 ∧
    countEntryPut (run (Sys.fresh ⟨"id", some 7, 0, 0, Task.zero, false⟩)
        [Op.goDispose, Op.goDispose, Op.step 0, Op.step 1, Op.step 0, Op.step 1,
          Op.step 0, Op.step 1, Op.step 0, Op.step 1, Op.step 0, Op.step 1]).log = 2 := by
  decide

/-- C9 (the code at the failing input): the pooled object is constructed with
task `1` and interval 20 and scheduled; its ticker loop (goroutine `0`) starts
waiting; the entry is disposed, which puts the object back into the pool;
`newTimerTask` takes the same object for task `2`, resetting the flag, and it is
scheduled again. Two ticker loops now run on the one object, and the next tick
of the first loop submits task `2`. -/
theorem C9_two_loops_after_pool_reuse :
    (run ⟨timerTask.zero, 1, [], [], false⟩
        [Op.newTimerTask (some 7) ⟨some 1, some 1, []⟩ 0 20 100 200, Op.schedule]).threads
      = [PC.loopCheck] ∧
    activeLoops (run ⟨timerTask.zero, 1, [], [], false⟩
        [Op.newTimerTask (some 7) ⟨some 1, some 1, []⟩ 0 20 100 200, Op.schedule, Op.step 0,
          Op.Dispose,
          Op.newTimerTask (some 7) ⟨some 2, some 2, []⟩ 0 20 300 400, Op.schedule]) = 2 ∧
    (run ⟨timerTask.zero, 1, [], [], false⟩
        [Op.newTimerTask (some 7) ⟨some 1, some 1, []⟩ 0 20 100 200, Op.schedule, Op.step 0,
          Op.Dispose,
          Op.newTimerTask (some 7) ⟨some 2, some 2, []⟩ 0 20 300 400, Op.schedule,
          Op.step 0, Op.step 0]).threads = [PC.loopEnqueue, PC.loopCheck] ∧
    run ⟨timerTask.zero, 1, [], [], false⟩
        [Op.newTimerTask (some 7) ⟨some 1, some 1, []⟩ 0 20 100 200, Op.schedule, Op.step 0,
          Op.Dispose,
          Op.newTimerTask (some 7) ⟨some 2, some 2, []⟩ 0 20 300 400, Op.schedule,
          Op.step 0, Op.step 0, Op.step 0]
      = ⟨⟨"0x12c-0x190", some 7, 0, 20, ⟨some 2, some 2, []⟩, false⟩, 0,
          [Event.enqueueWithTask 7 ⟨some 1, some 1, []⟩, Event.newTicker 20000000,
            Event.remove 7, Event.taskPoolPut ⟨some 1, some 1, []⟩, Event.timerTaskPoolPut,
            Event.enqueueWithTask 7 ⟨some 2, some 2, []⟩, Event.newTicker 20000000,
            Event.enqueueWithTask 7 ⟨some 2, some 2, []⟩],
          [PC.loopCheck, PC.loopCheck], false⟩ := by
  decide

end Robin
